import Mathlib

/-!
Verification of the data-ingestor component: a shallow embedding of the
ingestion pipeline (parsers, Qdrant embedder, flat ingest, breadth-first
crawl) together with theorems about storage identity, batching, crawl
scoping, depth bounds, visited-set uniqueness, politeness delay, fetch
failure tolerance and registry lookup.

Strings from the source are modelled as `List Char`; machine integers of
the MD5 computation are `Nat` reduced modulo `2 ^ 32` where the source
overflows.
-/

/-- Convert a Lean string literal to the `List Char` representation used
throughout this development. -/
def str (s : String) : List Char := s.toList

/-- UTF-8 encoding of a single character, as in Python `str.encode()`. -/
def utf8Char (c : Char) : List Nat :=
  let n := c.toNat
  if n < 0x80 then [n]
  else if n < 0x800 then [0xC0 + n / 64, 0x80 + n % 64]
  else if n < 0x10000 then [0xE0 + n / 4096, 0x80 + n / 64 % 64, 0x80 + n % 64]
  else [0xF0 + n / 262144, 0x80 + n / 4096 % 64, 0x80 + n / 64 % 64, 0x80 + n % 64]

/-- UTF-8 encoding of a string, as in Python `str.encode()`. -/
def utf8Encode (s : List Char) : List Nat := s.flatMap utf8Char

/-- Successive slices `l[i : i + B]` for `i = 0, B, 2B, ...`, as produced by
`for i in range(0, len(l), B)` with slicing.  Python raises `ValueError`
for step `0`; that case is mapped to `[]` and excluded by hypotheses. -/
def chunks (B : Nat) : List α → List (List α)
  | [] => []
  | x :: xs =>
    match B with
    | 0 => []
    | B + 1 => (x :: xs).take (B + 1) :: chunks (B + 1) ((x :: xs).drop (B + 1))
termination_by l => l.length
decreasing_by simp; omega

/-- `k` little-endian bytes of `n`. -/
def toLEBytes (n k : Nat) : List Nat := (List.range k).map (fun i => n / 256 ^ i % 256)

/-- A 32-bit word from a list of little-endian bytes. -/
def wordLE (bs : List Nat) : Nat := bs.foldr (fun b acc => b + 256 * acc) 0

/-- The MD5 sine-derived constant table `K` (RFC 1321). -/
def md5K : List Nat :=
  [0xd76aa478, 0xe8c7b756, 0x242070db, 0xc1bdceee,
   0xf57c0faf, 0x4787c62a, 0xa8304613, 0xfd469501,
   0x698098d8, 0x8b44f7af, 0xffff5bb1, 0x895cd7be,
   0x6b901122, 0xfd987193, 0xa679438e, 0x49b40821,
   0xf61e2562, 0xc040b340, 0x265e5a51, 0xe9b6c7aa,
   0xd62f105d, 0x02441453, 0xd8a1e681, 0xe7d3fbc8,
   0x21e1cde6, 0xc33707d6, 0xf4d50d87, 0x455a14ed,
   0xa9e3e905, 0xfcefa3f8, 0x676f02d9, 0x8d2a4c8a,
   0xfffa3942, 0x8771f681, 0x6d9d6122, 0xfde5380c,
   0xa4beea44, 0x4bdecfa9, 0xf6bb4b60, 0xbebfbc70,
   0x289b7ec6, 0xeaa127fa, 0xd4ef3085, 0x04881d05,
   0xd9d4d039, 0xe6db99e5, 0x1fa27cf8, 0xc4ac5665,
   0xf4292244, 0x432aff97, 0xab9423a7, 0xfc93a039,
   0x655b59c3, 0x8f0ccc92, 0xffeff47d, 0x85845dd1,
   0x6fa87e4f, 0xfe2ce6e0, 0xa3014314, 0x4e0811a1,
   0xf7537e82, 0xbd3af235, 0x2ad7d2bb, 0xeb86d391]

/-- The MD5 per-round left-rotation amounts `s` (RFC 1321). -/
def md5S : List Nat :=
  [7, 12, 17, 22, 7, 12, 17, 22, 7, 12, 17, 22, 7, 12, 17, 22,
   5, 9, 14, 20, 5, 9, 14, 20, 5, 9, 14, 20, 5, 9, 14, 20,
   4, 11, 16, 23, 4, 11, 16, 23, 4, 11, 16, 23, 4, 11, 16, 23,
   6, 10, 15, 21, 6, 10, 15, 21, 6, 10, 15, 21, 6, 10, 15, 21]

/-- 32-bit left rotation. -/
def rotl32 (x c : Nat) : Nat := ((x <<< c) ||| (x >>> (32 - c))) % 4294967296

/-- The four 32-bit state registers of MD5. -/
structure MD5State where
  a : Nat
  b : Nat
  c : Nat
  d : Nat

/-- One of the 64 MD5 rounds over a 16-word message block `M`. -/
def md5Round (M : List Nat) (st : MD5State) (i : Nat) : MD5State :=
  let f :=
    if i < 16 then (st.b &&& st.c) ||| ((st.b ^^^ 0xffffffff) &&& st.d)
    else if i < 32 then (st.d &&& st.b) ||| ((st.d ^^^ 0xffffffff) &&& st.c)
    else if i < 48 then st.b ^^^ st.c ^^^ st.d
    else st.c ^^^ (st.b ||| (st.d ^^^ 0xffffffff))
  let g :=
    if i < 16 then i
    else if i < 32 then (5 * i + 1) % 16
    else if i < 48 then (3 * i + 5) % 16
    else (7 * i) % 16
  let tmp := (f + st.a + md5K.getD i 0 + M.getD g 0) % 4294967296
  { a := st.d
    b := (st.b + rotl32 tmp (md5S.getD i 0)) % 4294967296
    c := st.b
    d := st.c }

/-- Process one 64-byte block, adding the round result into the state. -/
def md5Chunk (st : MD5State) (block : List Nat) : MD5State :=
  let M := (chunks 4 block).map wordLE
  let r := (List.range 64).foldl (md5Round M) st
  { a := (st.a + r.a) % 4294967296
    b := (st.b + r.b) % 4294967296
    c := (st.c + r.c) % 4294967296
    d := (st.d + r.d) % 4294967296 }

/-- MD5 padding: a `0x80` byte, zeros to 56 mod 64, then the 64-bit
little-endian bit length. -/
def md5Pad (msg : List Nat) : List Nat :=
  msg ++ 0x80 :: List.replicate ((119 - msg.length % 64) % 64) 0
    ++ toLEBytes (msg.length * 8 % 18446744073709551616) 8

/-- The 16-byte MD5 digest of a byte string. -/
def md5Bytes (msg : List Nat) : List Nat :=
  let fin := (chunks 64 (md5Pad msg)).foldl md5Chunk
    { a := 0x67452301, b := 0xefcdab89, c := 0x98badcfe, d := 0x10325476 }
  toLEBytes fin.a 4 ++ toLEBytes fin.b 4 ++ toLEBytes fin.c 4 ++ toLEBytes fin.d 4

/-- Lowercase hexadecimal digit. -/
def hexDigit (n : Nat) : Char :=
  if n < 10 then Char.ofNat (48 + n) else Char.ofNat (87 + n)

/-- Lowercase hexadecimal rendering of a byte string. -/
def bytesToHex (bs : List Nat) : List Char :=
  bs.flatMap (fun b => [hexDigit (b / 16), hexDigit (b % 16)])

/-- `hashlib.md5(s.encode()).hexdigest()`. -/
def md5Hexdigest (s : List Char) : List Char := bytesToHex (md5Bytes (utf8Encode s))

/-- `ParsedDocument` from `parsers/base.py`: the standardized document
format produced by every parser. -/
structure ParsedDocument where
  source : List Char
  title : List Char
  content : List Char
  metadata : List (List Char × List Char)
  timestamp : List Char
  source_type : List Char
deriving DecidableEq

/-- `QdrantEmbedder._generate_id`: deterministic ID for a document based
on its source, `hashlib.md5(source.encode()).hexdigest()`. -/
def generateId (source : List Char) : List Char := md5Hexdigest source

/-- The payload dict stored alongside the vector in `QdrantEmbedder.store`. -/
structure Payload where
  source : List Char
  title : List Char
  content : List Char
  metadata : List (List Char × List Char)
  timestamp : List Char
  source_type : List Char
deriving DecidableEq

/-- A Qdrant `PointStruct` as built in `QdrantEmbedder.store`. -/
structure StorePoint where
  id : List Char
  vector : List Int
  payload : Payload
deriving DecidableEq

/-- The payload of a document, field for field as in `QdrantEmbedder.store`. -/
def payloadOf (d : ParsedDocument) : Payload :=
  { source := d.source
    title := d.title
    content := d.content
    metadata := d.metadata
    timestamp := d.timestamp
    source_type := d.source_type }

/-- The point built for a document in `QdrantEmbedder.store`, with the
embedding model abstracted as a function `embed` on the content. -/
def pointOf (embed : List Char → List Int) (d : ParsedDocument) : StorePoint :=
  { id := generateId d.source
    vector := embed d.content
    payload := payloadOf d }

/-- A Qdrant collection, modelled as an association list from point id to
the stored `(vector, payload)` record. -/
abbrev Collection := List (List Char × (List Int × Payload))

/-- Qdrant upsert of a single point: the external store keys records by
point id, so a point with an existing id overwrites that record. -/
def upsertPoint (c : Collection) (p : StorePoint) : Collection :=
  (p.id, (p.vector, p.payload)) :: c.filter (fun r => r.1 ≠ p.id)

/-- Qdrant upsert of a batch of points, in order. -/
def upsertBatch (c : Collection) (batch : List StorePoint) : Collection :=
  batch.foldl upsertPoint c

/-- The observable outcome of one `QdrantEmbedder.store` call: the
returned count, the number of `_ensure_collection` executions, the batches
passed to `client.upsert`, and the collection contents afterwards. -/
structure StoreResult where
  count : Nat
  ensureCalls : Nat
  upserts : List (List StorePoint)
  collection : Collection

/-- `QdrantEmbedder.store`: on an empty document list return `0` at once
(no collection check, no upsert); otherwise ensure the collection, build
one point per document (id derived from `source`), upsert the points in
slices of `batchSize`, and return the accumulated batch lengths. -/
def qdrantStore (embed : List Char → List Int) (batchSize : Nat)
    (documents : List ParsedDocument) (c : Collection) : StoreResult :=
  if documents = [] then
    { count := 0, ensureCalls := 0, upserts := [], collection := c }
  else
    let points := documents.map (pointOf embed)
    let batches := chunks batchSize points
    { count := (batches.map List.length).sum
      ensureCalls := 1
      upserts := batches
      collection := batches.foldl upsertBatch c }

/-- Number of records in a collection keyed by a given id. -/
def countKey (k : List Char) (c : Collection) : Nat :=
  (c.filter (fun r => r.1 = k)).length

/-- Python `s.rfind(ch)`: index of the last occurrence, `none` when absent
(the source compares the `-1` sentinel with `idx >= 0`). -/
def lastIdxOf (ch : Char) : List Char → Option Nat
  | [] => none
  | x :: xs =>
    match lastIdxOf ch xs with
    | some i => some (i + 1)
    | none => if x = ch then some 0 else none

/-- Scope computation per seed in `DataIngestor.crawl`: a seed ending in
a slash is its own scope; otherwise the seed is cut after its last slash;
a seed with no slash is its own scope. -/
def seedScope (seed : List Char) : List Char :=
  if seed.getLast? = some '/' then seed
  else
    match lastIdxOf '/' seed with
    | some idx => seed.take (idx + 1)
    | none => seed

/-- A crawl frontier entry `(url, depth, prefix)`; the third tuple
component is named `scope` here. -/
structure Entry where
  url : List Char
  depth : Nat
  scope : List Char
deriving DecidableEq

/-- Observable record of one iteration of the crawl loop: the dequeued
entry, whether it was discarded as already visited, whether the fetch
succeeded, the url stored (if any), the entries enqueued, the size of the
visited set at the end of the iteration, and whether the politeness delay
ran. -/
structure Iter where
  entry : Entry
  wasVisited : Bool
  fetchOk : Bool
  stored : Option (List Char)
  enqueued : List Entry
  visitedAfter : Nat
  slept : Bool
deriving DecidableEq

/-- The `while queue` loop of `DataIngestor.crawl`, parameterized by the
parser fetch (`none` models a failed fetch) and by link extraction, and
instrumented with an `Iter` trace.  `isHtml` models the
`isinstance(parser, HTMLParser)` guard.  The stored count per successful
page is `1`, the value `QdrantEmbedder.store` returns on a one-document
list (proved below as `qdrantStore_single_count`).  Recursion is on
explicit fuel; every theorem below holds for all fuel values. -/
def crawlLoop (fetch : List Char → Option (List Char))
    (links : List Char → List Char → List (List Char))
    (maxDepth : Nat) (isHtml : Bool) :
    Nat → List Entry → List (List Char) → Nat × List Iter
  | 0, _, _ => (0, [])
  | _ + 1, [], _ => (0, [])
  | fuel + 1, e :: rest, visited =>
    if e.url ∈ visited then
      let r := crawlLoop fetch links maxDepth isHtml fuel rest visited
      (r.1, { entry := e, wasVisited := true, fetchOk := false, stored := none,
              enqueued := [], visitedAfter := visited.length, slept := false } :: r.2)
    else
      match fetch e.url with
      | none =>
        let r := crawlLoop fetch links maxDepth isHtml fuel rest (e.url :: visited)
        (r.1, { entry := e, wasVisited := false, fetchOk := false, stored := none,
                enqueued := [], visitedAfter := (e.url :: visited).length,
                slept := false } :: r.2)
      | some html =>
        let newEntries :=
          if e.depth < maxDepth ∧ isHtml = true then
            ((links html e.url).filter
              (fun l => !decide (l ∈ e.url :: visited) && e.scope.isPrefixOf l)).map
              (fun l => Entry.mk l (e.depth + 1) e.scope)
          else []
        let slept := decide (1 < (e.url :: visited).length)
        let r := crawlLoop fetch links maxDepth isHtml fuel
          (rest ++ newEntries) (e.url :: visited)
        (r.1 + 1,
         { entry := e, wasVisited := false, fetchOk := true, stored := some e.url,
           enqueued := newEntries, visitedAfter := (e.url :: visited).length,
           slept := slept } :: r.2)

/-- The initial frontier of `DataIngestor.crawl`: every seed at depth 0
with its computed scope. -/
def crawlInit (seeds : List (List Char)) : List Entry :=
  seeds.map (fun s => { url := s, depth := 0, scope := seedScope s })

/-- A full crawl run from the seeds with an empty visited set. -/
def crawlRun (fetch : List Char → Option (List Char))
    (links : List Char → List Char → List (List Char))
    (maxDepth : Nat) (isHtml : Bool) (fuel : Nat)
    (seeds : List (List Char)) : Nat × List Iter :=
  crawlLoop fetch links maxDepth isHtml fuel (crawlInit seeds) []

/-- Every frontier entry ever enqueued during a trace (excluding seeds). -/
def traceEnqueued (tr : List Iter) : List Entry := tr.flatMap Iter.enqueued

/-- Every frontier entry ever enqueued in a run: the seed entries plus the
entries enqueued by the loop. -/
def allEnqueued (fetch : List Char → Option (List Char))
    (links : List Char → List Char → List (List Char))
    (maxDepth : Nat) (isHtml : Bool) (fuel : Nat)
    (seeds : List (List Char)) : List Entry :=
  crawlInit seeds ++ traceEnqueued (crawlRun fetch links maxDepth isHtml fuel seeds).2

/-- Sources of the documents stored during a trace. -/
def storedUrls (tr : List Iter) : List (List Char) := tr.filterMap Iter.stored

/-- Urls on which work was done (fetch attempted): the dequeued urls not
discarded by the visited-set guard. -/
def processedUrls (tr : List Iter) : List (List Char) :=
  (tr.filter (fun it => !it.wasVisited)).map (fun it => it.entry.url)

/-- The parser classes defined in the `parsers` package; discovery over
the package modules registers exactly `HTMLParser`. -/
inductive ParserKind where
  | html
deriving DecidableEq

/-- The embedder classes defined in the `embedders` package; discovery
over the package modules registers exactly `QdrantEmbedder`. -/
inductive EmbedderKind where
  | qdrant
deriving DecidableEq

/-- `_PARSER_REGISTRY` after `_discover_parsers()`: `HTMLParser` keyed by
its `source_type` property `"html"`. -/
def parserRegistry : List (List Char × ParserKind) := [(str "html", ParserKind.html)]

/-- `_EMBEDDER_REGISTRY` after `_discover_embedders()`: `QdrantEmbedder`
keyed by its `store_type` property `"qdrant"`. -/
def embedderRegistry : List (List Char × EmbedderKind) :=
  [(str "qdrant", EmbedderKind.qdrant)]

/-- Dict lookup by key. -/
def lookupKey (t : List Char) : List (List Char × β) → Option β
  | [] => none
  | (k, v) :: rest => if t = k then some v else lookupKey t rest

/-- The single-quote character used by Python `repr` for strings. -/
def quoteChar : Char := Char.ofNat 39

/-- The comma-separated items of a Python list repr, each string wrapped
in single quotes. -/
def pyReprItems : List (List Char) → List Char
  | [] => []
  | [k] => quoteChar :: k ++ [quoteChar]
  | k :: k2 :: rest => quoteChar :: k ++ [quoteChar] ++ str ", " ++ pyReprItems (k2 :: rest)

/-- Python `str(list(keys))` for a list of strings: each key wrapped in
single quotes, comma-separated, inside square brackets. -/
def pyListRepr (keys : List (List Char)) : List Char :=
  '[' :: pyReprItems keys ++ [']']

/-- `get_parser_class`: return the registered class, or raise `ValueError`
with a message naming the requested tag and the registered tags. -/
def getParserKind (source_type : List Char) : Except (List Char) ParserKind :=
  match lookupKey source_type parserRegistry with
  | some cls => Except.ok cls
  | none => Except.error (str "Unsupported source type: " ++ source_type
      ++ str ". Available types: " ++ pyListRepr (parserRegistry.map Prod.fst))

/-- `get_embedder_class`: return the registered class, or raise
`ValueError` with a message naming the requested tag and the registered
tags. -/
def getEmbedderKind (store_type : List Char) : Except (List Char) EmbedderKind :=
  match lookupKey store_type embedderRegistry with
  | some cls => Except.ok cls
  | none => Except.error (str "Unknown store type: " ++ store_type
      ++ str ". Available: " ++ pyListRepr (embedderRegistry.map Prod.fst))

/-- `BaseParser.ingest`: fetch then parse; `none` when fetch failed. -/
def parserIngest (fetch : List Char → Option α)
    (parse : α → List Char → ParsedDocument) (source : List Char) :
    Option ParsedDocument :=
  match fetch source with
  | none => none
  | some content => some (parse content source)

/-- Observable outcome of `DataIngestor.ingest`: the returned count, the
batches handed to the embedder `store` (one per call), and how many times
the embedder registry was consulted. -/
structure IngestOutcome where
  returned : Nat
  storeCalls : List (List ParsedDocument)
  embedderLookups : Nat
deriving DecidableEq

/-- `DataIngestor.ingest`: resolve the parser, fetch-and-parse every
source keeping the successes, return `0` straight away when no document
resulted (the embedder registry is never consulted on that path), and
otherwise resolve the embedder and call its `store` once with the full
batch.  `storeFn` abstracts `embedder.store(documents, collection)`. -/
def ingestOp (fetch : List Char → Option α)
    (parse : α → List Char → ParsedDocument)
    (storeFn : List ParsedDocument → Nat)
    (source_type store_type : List Char) (sources : List (List Char)) :
    Except (List Char) IngestOutcome :=
  match getParserKind source_type with
  | Except.error e => Except.error e
  | Except.ok _ =>
    let documents := sources.filterMap (parserIngest fetch parse)
    if documents = [] then Except.ok { returned := 0, storeCalls := [], embedderLookups := 0 }
    else
      match getEmbedderKind store_type with
      | Except.error e => Except.error e
      | Except.ok _ =>
        Except.ok { returned := storeFn documents, storeCalls := [documents],
                    embedderLookups := 1 }

/-- `DataIngestor.crawl`: the parser and the embedder are both resolved
before any crawling, so an unknown tag faults here even for an empty seed
list; then the crawl loop runs.  The registered parser is `HTMLParser`,
so the `isinstance(parser, HTMLParser)` guard holds. -/
def crawlOp (fetch : List Char → Option (List Char))
    (links : List Char → List Char → List (List Char))
    (maxDepth : Nat) (source_type store_type : List Char) (fuel : Nat)
    (seeds : List (List Char)) : Except (List Char) (Nat × List Iter) :=
  match getParserKind source_type with
  | Except.error e => Except.error e
  | Except.ok _ =>
    match getEmbedderKind store_type with
    | Except.error e => Except.error e
    | Except.ok _ => Except.ok (crawlRun fetch links maxDepth true fuel seeds)

lemma chunks_nil (B : Nat) : chunks B ([] : List α) = [] := by
  rw [chunks]

lemma chunks_cons (B : Nat) (x : α) (xs : List α) :
    chunks (B + 1) (x :: xs)
      = (x :: xs).take (B + 1) :: chunks (B + 1) ((x :: xs).drop (B + 1)) := by
  rw [chunks]

lemma chunks_flatten : ∀ (B : Nat) (l : List α), 1 ≤ B → (chunks B l).flatten = l := by
  intro B l
  induction B, l using chunks.induct with
  | case1 B => intro _; simp [chunks_nil]
  | case2 x xs => intro h; omega
  | case3 x xs B ih =>
    intro _
    rw [chunks_cons]
    simp only [List.flatten_cons, ih (by omega)]
    exact List.take_append_drop _ _

lemma chunks_length_le : ∀ (B : Nat) (l : List α), ∀ b ∈ chunks B l, b.length ≤ B := by
  intro B l
  induction B, l using chunks.induct with
  | case1 B => simp [chunks_nil]
  | case2 x xs => simp [chunks]
  | case3 x xs B ih =>
    rw [chunks_cons]
    intro b hb
    rcases List.mem_cons.mp hb with h | h
    · subst h
      simp
    · exact ih b h

lemma chunks_count : ∀ (B : Nat) (l : List α), 1 ≤ B →
    (chunks B l).length = (l.length + B - 1) / B := by
  intro B l
  induction B, l using chunks.induct with
  | case1 B =>
    intro hB
    rw [chunks_nil]
    simp [Nat.div_eq_of_lt (show B - 1 < B by omega)]
  | case2 x xs => intro h; omega
  | case3 x xs B ih =>
    intro _
    rw [chunks_cons]
    simp only [Nat.succ_eq_add_one, List.length_cons]
    by_cases hn : xs.length + 1 ≤ B + 1
    · rw [List.drop_eq_nil_of_le (by simpa using hn), chunks_nil]
      show 1 = _
      exact (Nat.div_eq_of_lt_le (by omega) (by omega)).symm
    · have hlen : ((x :: xs).drop (B + 1)).length = xs.length - B := by
        simp
      rw [ih (by omega), hlen]
      have h2 : xs.length - B + (B + 1) - 1 = xs.length - B + B := by omega
      have h3 : xs.length + 1 + (B + 1) - 1 = (xs.length - B + B) + (B + 1) := by omega
      rw [h2, h3, Nat.add_div_right _ (by omega)]

lemma chunks_sum_length (B : Nat) (l : List α) (hB : 1 ≤ B) :
    ((chunks B l).map List.length).sum = l.length := by
  have h := congrArg List.length (chunks_flatten B l hB)
  rw [← h, List.length_flatten]

lemma upsertBatch_chunks (B : Nat) (hB : 1 ≤ B) (ps : List StorePoint) (c : Collection) :
    (chunks B ps).foldl upsertBatch c = ps.foldl upsertPoint c := by
  calc (chunks B ps).foldl upsertBatch c
      = (chunks B ps).foldl (fun b l => List.foldl upsertPoint b l) c := rfl
    _ = ((chunks B ps).flatten).foldl upsertPoint c :=
        (List.foldl_flatten upsertPoint c (chunks B ps)).symm
    _ = ps.foldl upsertPoint c := by rw [chunks_flatten B ps hB]

lemma filter_ne_idem (k : List Char) (c : Collection) :
    (c.filter (fun r => r.1 ≠ k)).filter (fun r => r.1 ≠ k)
      = c.filter (fun r => r.1 ≠ k) := by
  induction c with
  | nil => rfl
  | cons r c ih =>
    by_cases h : r.1 = k <;> simp [List.filter_cons, h, ih]

lemma upsertPoint_overwrite (c : Collection) (p q : StorePoint) (h : p.id = q.id) :
    upsertPoint (upsertPoint c p) q = upsertPoint c q := by
  simp only [upsertPoint, h, List.filter_cons]
  simp [filter_ne_idem]

lemma countKey_filter_ne (k : List Char) (c : Collection) :
    countKey k (c.filter (fun r => r.1 ≠ k)) = 0 := by
  simp only [countKey, List.filter_filter, List.length_eq_zero, List.filter_eq_nil_iff]
  intro r _
  by_cases h : r.1 = k <;> simp [h]

lemma countKey_upsertPoint (c : Collection) (p : StorePoint) :
    countKey p.id (upsertPoint c p) = 1 := by
  have h := countKey_filter_ne p.id c
  simp only [countKey, upsertPoint, List.filter_cons] at h ⊢
  simp [h]

lemma qdrantStore_nil (embed : List Char → List Int) (B : Nat) (c : Collection) :
    qdrantStore embed B [] c
      = { count := 0, ensureCalls := 0, upserts := [], collection := c } := by
  simp [qdrantStore]

lemma qdrantStore_single (embed : List Char → List Int) {B : Nat} (hB : 1 ≤ B)
    (d : ParsedDocument) (c : Collection) :
    qdrantStore embed B [d] c
      = { count := 1, ensureCalls := 1, upserts := [[pointOf embed d]],
          collection := upsertPoint c (pointOf embed d) } := by
  obtain ⟨B, rfl⟩ : ∃ B0, B = B0 + 1 := ⟨B - 1, by omega⟩
  simp [qdrantStore, chunks_cons, chunks_nil, upsertBatch]

/-- `QdrantEmbedder.store` on a one-document list returns `1`, the count
the crawl loop accumulates per stored page. -/
lemma qdrantStore_single_count (embed : List Char → List Int) {B : Nat} (hB : 1 ≤ B)
    (d : ParsedDocument) (c : Collection) :
    (qdrantStore embed B [d] c).count = 1 := by
  rw [qdrantStore_single embed hB d c]

/-- C1.  Storage identity is an idempotent pure function of the source:
the point id depends on the document `source` alone, one `store` of a
document leaves exactly one record keyed by its id, a second `store` of
the same document leaves the collection unchanged, and storing two
documents with the same source in one call equals storing just the second
(the second overwrites rather than duplicates). -/
theorem storeIdentityIdempotent (embed : List Char → List Int) {B : Nat} (hB : 1 ≤ B)
    (d d' : ParsedDocument) (c : Collection) (hsrc : d.source = d'.source) :
    (pointOf embed d).id = (pointOf embed d').id ∧
    countKey (generateId d.source) (qdrantStore embed B [d] c).collection = 1 ∧
    (qdrantStore embed B [d] (qdrantStore embed B [d] c).collection).collection
      = (qdrantStore embed B [d] c).collection ∧
    (qdrantStore embed B [d, d'] c).collection
      = (qdrantStore embed B [d'] c).collection := by
  have hid : (pointOf embed d).id = (pointOf embed d').id := by
    simp [pointOf, generateId, hsrc]
  refine ⟨hid, ?_, ?_, ?_⟩
  · rw [qdrantStore_single embed hB d c]
    exact countKey_upsertPoint c (pointOf embed d)
  · rw [qdrantStore_single embed hB d c, qdrantStore_single embed hB d _]
    exact upsertPoint_overwrite c _ _ rfl
  · rw [qdrantStore_single embed hB d' c]
    have h2 : qdrantStore embed B [d, d'] c
        = { count := ((chunks B [pointOf embed d, pointOf embed d']).map List.length).sum,
            ensureCalls := 1,
            upserts := chunks B [pointOf embed d, pointOf embed d'],
            collection := (chunks B [pointOf embed d, pointOf embed d']).foldl upsertBatch c } := by
      simp [qdrantStore]
    rw [h2]
    show (chunks B [pointOf embed d, pointOf embed d']).foldl upsertBatch c = _
    rw [upsertBatch_chunks B hB]
    show upsertPoint (upsertPoint c (pointOf embed d)) (pointOf embed d') = _
    exact upsertPoint_overwrite c _ _ hid

/-- Witness for C1 at `B = 1`, two documents sharing a source but with
different titles, and an empty collection. -/
theorem storeIdentityIdempotent_witness :
    (1 : Nat) ≤ 1 ∧
    (⟨str "https://x.com/docs/a", str "t1", str "c1", [], str "ts1", str "html"⟩ :
        ParsedDocument).source
      = (⟨str "https://x.com/docs/a", str "t2", str "c2", [], str "ts2", str "html"⟩ :
        ParsedDocument).source ∧
    ((pointOf (fun _ => []) ⟨str "https://x.com/docs/a", str "t1", str "c1", [], str "ts1", str "html"⟩).id
        = (pointOf (fun _ => []) ⟨str "https://x.com/docs/a", str "t2", str "c2", [], str "ts2", str "html"⟩).id ∧
      countKey (generateId (str "https://x.com/docs/a"))
        (qdrantStore (fun _ => []) 1 [⟨str "https://x.com/docs/a", str "t1", str "c1", [], str "ts1", str "html"⟩] []).collection = 1 ∧
      (qdrantStore (fun _ => []) 1 [⟨str "https://x.com/docs/a", str "t1", str "c1", [], str "ts1", str "html"⟩]
          (qdrantStore (fun _ => []) 1 [⟨str "https://x.com/docs/a", str "t1", str "c1", [], str "ts1", str "html"⟩] []).collection).collection
        = (qdrantStore (fun _ => []) 1 [⟨str "https://x.com/docs/a", str "t1", str "c1", [], str "ts1", str "html"⟩] []).collection ∧
      (qdrantStore (fun _ => []) 1 [⟨str "https://x.com/docs/a", str "t1", str "c1", [], str "ts1", str "html"⟩,
          ⟨str "https://x.com/docs/a", str "t2", str "c2", [], str "ts2", str "html"⟩] []).collection
        = (qdrantStore (fun _ => []) 1 [⟨str "https://x.com/docs/a", str "t2", str "c2", [], str "ts2", str "html"⟩] []).collection) :=
  ⟨Nat.le_refl 1, rfl, storeIdentityIdempotent (fun _ => []) (Nat.le_refl 1) _ _ [] rfl⟩

/-- C2.  Batching correctness: `store(documents, collection)` with batch
size `B ≥ 1` issues exactly `⌈N / B⌉` upsert calls for `N` documents, each
batch of size at most `B`, and returns `N` as the total stored count; for
`N = 0` it issues zero upsert calls, performs no collection check, and
returns `0`. -/
theorem storeBatching (embed : List Char → List Int) (B : Nat) (hB : 1 ≤ B)
    (documents : List ParsedDocument) (c : Collection) :
    (qdrantStore embed B documents c).upserts.length
      = (documents.length + B - 1) / B ∧
    (∀ b ∈ (qdrantStore embed B documents c).upserts, b.length ≤ B) ∧
    (qdrantStore embed B documents c).count = documents.length ∧
    (documents = [] → qdrantStore embed B documents c
      = { count := 0, ensureCalls := 0, upserts := [], collection := c }) := by
  by_cases hd : documents = []
  · subst hd
    rw [qdrantStore_nil]
    refine ⟨?_, by simp, rfl, fun _ => rfl⟩
    simp [Nat.div_eq_of_lt (show B - 1 < B by omega)]
  · have h2 : qdrantStore embed B documents c
        = { count := ((chunks B (documents.map (pointOf embed))).map List.length).sum,
            ensureCalls := 1,
            upserts := chunks B (documents.map (pointOf embed)),
            collection := (chunks B (documents.map (pointOf embed))).foldl upsertBatch c } := by
      simp [qdrantStore, hd]
    rw [h2]
    refine ⟨?_, ?_, ?_, fun h => absurd h hd⟩
    · show (chunks B (documents.map (pointOf embed))).length = _
      rw [chunks_count B _ hB, List.length_map]
    · exact chunks_length_le B _
    · show ((chunks B (documents.map (pointOf embed))).map List.length).sum = _
      rw [chunks_sum_length B _ hB, List.length_map]

/-- Witness for C2 at three documents and batch size two. -/
theorem storeBatching_witness :
    (1 : Nat) ≤ 2 ∧
    ((qdrantStore (fun _ => []) 2
        [⟨str "a", [], [], [], [], []⟩, ⟨str "b", [], [], [], [], []⟩,
         ⟨str "c", [], [], [], [], []⟩] []).upserts.length = (3 + 2 - 1) / 2 ∧
      (∀ b ∈ (qdrantStore (fun _ => []) 2
        [⟨str "a", [], [], [], [], []⟩, ⟨str "b", [], [], [], [], []⟩,
         ⟨str "c", [], [], [], [], []⟩] []).upserts, b.length ≤ 2) ∧
      (qdrantStore (fun _ => []) 2
        [⟨str "a", [], [], [], [], []⟩, ⟨str "b", [], [], [], [], []⟩,
         ⟨str "c", [], [], [], [], []⟩] []).count = 3 ∧
      ([⟨str "a", [], [], [], [], []⟩, ⟨str "b", [], [], [], [], []⟩,
        ⟨str "c", [], [], [], [], []⟩] = ([] : List ParsedDocument) →
        qdrantStore (fun _ => []) 2
          [⟨str "a", [], [], [], [], []⟩, ⟨str "b", [], [], [], [], []⟩,
           ⟨str "c", [], [], [], [], []⟩] []
          = { count := 0, ensureCalls := 0, upserts := [], collection := [] })) :=
  ⟨by omega, storeBatching (fun _ => []) 2 (by omega) _ []⟩

lemma crawlLoop_iter_inv (fetch : List Char → Option (List Char))
    (links : List Char → List Char → List (List Char))
    (maxDepth : Nat) (isHtml : Bool) (P : Entry → Prop)
    (hstep : ∀ e l, P e → e.depth < maxDepth → e.scope.isPrefixOf l = true →
      P { url := l, depth := e.depth + 1, scope := e.scope }) :
    ∀ (fuel : Nat) (queue : List Entry) (visited : List (List Char)),
      (∀ e ∈ queue, P e) →
      ∀ it ∈ (crawlLoop fetch links maxDepth isHtml fuel queue visited).2,
        P it.entry ∧ ∀ e ∈ it.enqueued, P e := by
  intro fuel
  induction fuel with
  | zero =>
    intro queue visited hq it hit
    simp [crawlLoop] at hit
  | succ fuel ih =>
    intro queue visited hq it hit
    match queue with
    | [] => simp [crawlLoop] at hit
    | e :: rest =>
      by_cases hv : e.url ∈ visited
      · simp only [crawlLoop, if_pos hv] at hit
        rcases List.mem_cons.mp hit with rfl | hmem
        · exact ⟨hq e (by simp), by simp⟩
        · exact ih rest visited (fun x hx => hq x (List.mem_cons_of_mem _ hx)) it hmem
      · cases hf : fetch e.url with
        | none =>
          simp only [crawlLoop, if_neg hv, hf] at hit
          rcases List.mem_cons.mp hit with rfl | hmem
          · exact ⟨hq e (by simp), by simp⟩
          · exact ih rest (e.url :: visited)
              (fun x hx => hq x (List.mem_cons_of_mem _ hx)) it hmem
        | some html =>
          have hPnew : ∀ e' ∈ (if e.depth < maxDepth ∧ isHtml = true then
              ((links html e.url).filter
                (fun l => !decide (l ∈ e.url :: visited) && e.scope.isPrefixOf l)).map
                (fun l => Entry.mk l (e.depth + 1) e.scope)
            else []), P e' := by
            intro e' he'
            by_cases hc : e.depth < maxDepth ∧ isHtml = true
            · rw [if_pos hc] at he'
              obtain ⟨l, hl, rfl⟩ := List.mem_map.mp he'
              have hl2 := (List.mem_filter.mp hl).2
              have hpref : e.scope.isPrefixOf l = true := by
                simp only [Bool.and_eq_true] at hl2
                exact hl2.2
              exact hstep e l (hq e (by simp)) hc.1 hpref
            · rw [if_neg hc] at he'
              simp at he'
          simp only [crawlLoop, if_neg hv, hf] at hit
          rcases List.mem_cons.mp hit with rfl | hmem
          · exact ⟨hq e (by simp), hPnew⟩
          · refine ih _ (e.url :: visited) ?_ it hmem
            intro x hx
            rcases List.mem_append.mp hx with h | h
            · exact hq x (List.mem_cons_of_mem _ h)
            · exact hPnew x h

lemma crawlLoop_shape (fetch : List Char → Option (List Char))
    (links : List Char → List Char → List (List Char))
    (maxDepth : Nat) (isHtml : Bool) :
    ∀ (fuel : Nat) (queue : List Entry) (visited : List (List Char)),
      ∀ it ∈ (crawlLoop fetch links maxDepth isHtml fuel queue visited).2,
        (it.stored = none ∨ it.stored = some it.entry.url) ∧
        (it.wasVisited = true → it.stored = none ∧ it.enqueued = []) ∧
        (it.slept = true ↔
          it.wasVisited = false ∧ it.fetchOk = true ∧ 1 < it.visitedAfter) := by
  intro fuel
  induction fuel with
  | zero =>
    intro queue visited it hit
    simp [crawlLoop] at hit
  | succ fuel ih =>
    intro queue visited it hit
    match queue with
    | [] => simp [crawlLoop] at hit
    | e :: rest =>
      by_cases hv : e.url ∈ visited
      · simp only [crawlLoop, if_pos hv] at hit
        rcases List.mem_cons.mp hit with rfl | hmem
        · refine ⟨Or.inl rfl, fun _ => ⟨rfl, rfl⟩, ?_⟩
          simp
        · exact ih rest visited it hmem
      · cases hf : fetch e.url with
        | none =>
          simp only [crawlLoop, if_neg hv, hf] at hit
          rcases List.mem_cons.mp hit with rfl | hmem
          · refine ⟨Or.inl rfl, by simp, ?_⟩
            simp
          · exact ih rest (e.url :: visited) it hmem
        | some html =>
          simp only [crawlLoop, if_neg hv, hf] at hit
          rcases List.mem_cons.mp hit with rfl | hmem
          · refine ⟨Or.inr rfl, by simp, ?_⟩
            simp
          · exact ih _ (e.url :: visited) it hmem

lemma crawlLoop_processed (fetch : List Char → Option (List Char))
    (links : List Char → List Char → List (List Char))
    (maxDepth : Nat) (isHtml : Bool) :
    ∀ (fuel : Nat) (queue : List Entry) (visited : List (List Char)),
      (processedUrls (crawlLoop fetch links maxDepth isHtml fuel queue visited).2).Nodup ∧
      ∀ u ∈ processedUrls (crawlLoop fetch links maxDepth isHtml fuel queue visited).2,
        u ∉ visited := by
  intro fuel
  induction fuel with
  | zero =>
    intro queue visited
    simp [crawlLoop, processedUrls]
  | succ fuel ih =>
    intro queue visited
    match queue with
    | [] => simp [crawlLoop, processedUrls]
    | e :: rest =>
      by_cases hv : e.url ∈ visited
      · have h := ih rest visited
        simp only [crawlLoop, if_pos hv]
        simpa [processedUrls] using h
      · cases hf : fetch e.url with
        | none =>
          have h := ih rest (e.url :: visited)
          simp only [crawlLoop, if_neg hv, hf]
          simp only [processedUrls, List.filter_cons] at h ⊢
          simp only [Bool.not_false, if_pos, List.map_cons, List.nodup_cons]
          refine ⟨⟨fun hmem => (h.2 _ hmem) (by simp), h.1⟩, ?_⟩
          intro u hu
          rcases List.mem_cons.mp hu with rfl | hmem
          · exact hv
          · intro huv
            exact (h.2 u hmem) (List.mem_cons_of_mem _ huv)
        | some html =>
          have h := ih (rest ++ (if e.depth < maxDepth ∧ isHtml = true then
              ((links html e.url).filter
                (fun l => !decide (l ∈ e.url :: visited) && e.scope.isPrefixOf l)).map
                (fun l => Entry.mk l (e.depth + 1) e.scope)
            else [])) (e.url :: visited)
          simp only [crawlLoop, if_neg hv, hf]
          simp only [processedUrls, List.filter_cons] at h ⊢
          simp only [Bool.not_false, if_pos, List.map_cons, List.nodup_cons]
          refine ⟨⟨fun hmem => (h.2 _ hmem) (by simp), h.1⟩, ?_⟩
          intro u hu
          rcases List.mem_cons.mp hu with rfl | hmem
          · exact hv
          · intro huv
            exact (h.2 u hmem) (List.mem_cons_of_mem _ huv)

lemma seedScope_IsPrefix (s : List Char) : seedScope s <+: s := by
  by_cases h : s.getLast? = some '/'
  · simp [seedScope, h]
  · rw [seedScope, if_neg h]
    cases hidx : lastIdxOf '/' s with
    | none => exact List.prefix_refl s
    | some idx => exact ⟨s.drop (idx + 1), List.take_append_drop _ _⟩

/-- C3.  Scope containment: every frontier entry ever enqueued (seed
entries included) has a url starting with the scope stored in the entry,
and that scope is one of the seed scopes (the parent scope is propagated
unchanged); consequently every stored document source starts with some
seed scope. -/
theorem crawlScopeContainment (fetch : List Char → Option (List Char))
    (links : List Char → List Char → List (List Char))
    (maxDepth : Nat) (isHtml : Bool) (fuel : Nat) (seeds : List (List Char)) :
    (∀ e ∈ allEnqueued fetch links maxDepth isHtml fuel seeds,
      e.scope <+: e.url ∧ e.scope ∈ seeds.map seedScope) ∧
    (∀ u ∈ storedUrls (crawlRun fetch links maxDepth isHtml fuel seeds).2,
      ∃ p ∈ seeds.map seedScope, p <+: u) := by
  have hstep : ∀ (e : Entry) (l : List Char),
      (e.scope <+: e.url ∧ e.scope ∈ seeds.map seedScope) → e.depth < maxDepth →
      e.scope.isPrefixOf l = true →
      ((Entry.mk l (e.depth + 1) e.scope).scope <+: (Entry.mk l (e.depth + 1) e.scope).url ∧
        (Entry.mk l (e.depth + 1) e.scope).scope ∈ seeds.map seedScope) := by
    intro e l hPe _ hpref
    exact ⟨by simpa using hpref, hPe.2⟩
  have hseed : ∀ e ∈ crawlInit seeds,
      e.scope <+: e.url ∧ e.scope ∈ seeds.map seedScope := by
    intro e he
    obtain ⟨s, hs, rfl⟩ := List.mem_map.mp he
    exact ⟨seedScope_IsPrefix s, List.mem_map_of_mem _ hs⟩
  have hinv := crawlLoop_iter_inv fetch links maxDepth isHtml
    (fun e => e.scope <+: e.url ∧ e.scope ∈ seeds.map seedScope) hstep
    fuel (crawlInit seeds) [] hseed
  constructor
  · intro e he
    rcases List.mem_append.mp he with h | h
    · exact hseed e h
    · obtain ⟨it, hit, hin⟩ := List.mem_flatMap.mp h
      exact (hinv it hit).2 e hin
  · intro u hu
    obtain ⟨it, hit, hsome⟩ := List.mem_filterMap.mp hu
    have hsh := crawlLoop_shape fetch links maxDepth isHtml fuel (crawlInit seeds) [] it hit
    have hurl : u = it.entry.url := by
      rcases hsh.1 with h | h
      · rw [h] at hsome; cases hsome
      · rw [h] at hsome; exact (Option.some_inj.mp hsome).symm
    have hPe := (hinv it hit).1
    exact ⟨it.entry.scope, hPe.2, hurl ▸ hPe.1⟩

/-- Witness for C3: a crawl seeded at `a/1` (scope `a/`) enqueues the
in-scope link `a/2` with the propagated scope, and its stored source
`a/2` starts with the seed scope. -/
theorem crawlScopeContainment_witness :
    ((Entry.mk (str "a/2") 1 (str "a/")) ∈ allEnqueued (fun u => some u)
        (fun html _ => if html = str "a/1" then [str "a/2", str "b/9"] else [])
        2 true 10 [str "a/1"] ∧
      ((Entry.mk (str "a/2") 1 (str "a/")).scope <+: (Entry.mk (str "a/2") 1 (str "a/")).url ∧
        (Entry.mk (str "a/2") 1 (str "a/")).scope ∈ [str "a/1"].map seedScope)) ∧
    (str "a/2" ∈ storedUrls (crawlRun (fun u => some u)
        (fun html _ => if html = str "a/1" then [str "a/2", str "b/9"] else [])
        2 true 10 [str "a/1"]).2 ∧
      ∃ p ∈ [str "a/1"].map seedScope, p <+: str "a/2") :=
  ⟨⟨by decide,
    (crawlScopeContainment (fun u => some u)
      (fun html _ => if html = str "a/1" then [str "a/2", str "b/9"] else [])
      2 true 10 [str "a/1"]).1 _ (by decide)⟩,
   ⟨by decide,
    (crawlScopeContainment (fun u => some u)
      (fun html _ => if html = str "a/1" then [str "a/2", str "b/9"] else [])
      2 true 10 [str "a/1"]).2 _ (by decide)⟩⟩

/-- C4.  Depth bound: seeds enter the frontier at depth 0, and no frontier
entry is ever enqueued with depth greater than `maxDepth` (a link found at
depth `k` is enqueued at `k + 1` only when `k < maxDepth`). -/
theorem crawlDepthBound (fetch : List Char → Option (List Char))
    (links : List Char → List Char → List (List Char))
    (maxDepth : Nat) (isHtml : Bool) (fuel : Nat) (seeds : List (List Char)) :
    (∀ e ∈ crawlInit seeds, e.depth = 0) ∧
    (∀ e ∈ allEnqueued fetch links maxDepth isHtml fuel seeds, e.depth ≤ maxDepth) := by
  have hstep : ∀ (e : Entry) (l : List Char),
      e.depth ≤ maxDepth → e.depth < maxDepth → e.scope.isPrefixOf l = true →
      (Entry.mk l (e.depth + 1) e.scope).depth ≤ maxDepth := by
    intro e l _ hlt _
    exact hlt
  have hseed0 : ∀ e ∈ crawlInit seeds, e.depth = 0 := by
    intro e he
    obtain ⟨s, _, rfl⟩ := List.mem_map.mp he
    rfl
  have hinv := crawlLoop_iter_inv fetch links maxDepth isHtml
    (fun e => e.depth ≤ maxDepth) hstep fuel (crawlInit seeds) []
    (fun e he => by
      show e.depth ≤ maxDepth
      rw [hseed0 e he]
      exact Nat.zero_le _)
  refine ⟨hseed0, ?_⟩
  intro e he
  rcases List.mem_append.mp he with h | h
  · rw [hseed0 e h]; exact Nat.zero_le _
  · obtain ⟨it, hit, hin⟩ := List.mem_flatMap.mp h
    exact (hinv it hit).2 e hin

/-- Witness for C4 on the crawl of `crawlScopeContainment_witness`. -/
theorem crawlDepthBound_witness :
    ((Entry.mk (str "a/1") 0 (str "a/")) ∈ crawlInit [str "a/1"] ∧
      (Entry.mk (str "a/1") 0 (str "a/")).depth = 0) ∧
    ((Entry.mk (str "a/2") 1 (str "a/")) ∈ allEnqueued (fun u => some u)
        (fun html _ => if html = str "a/1" then [str "a/2", str "b/9"] else [])
        2 true 10 [str "a/1"] ∧
      (Entry.mk (str "a/2") 1 (str "a/")).depth ≤ 2) :=
  ⟨⟨by decide,
    (crawlDepthBound (fun u => some u)
      (fun html _ => if html = str "a/1" then [str "a/2", str "b/9"] else [])
      2 true 10 [str "a/1"]).1 _ (by decide)⟩,
   ⟨by decide,
    (crawlDepthBound (fun u => some u)
      (fun html _ => if html = str "a/1" then [str "a/2", str "b/9"] else [])
      2 true 10 [str "a/1"]).2 _ (by decide)⟩⟩

/-- C5.  Visited uniqueness: in every crawl run the urls on which work is
done (fetched, whether stored or failed) are pairwise distinct — a url is
marked visited upon dequeue before any fetch attempt, so a fetch-failed
url is never retried — and an iteration that dequeues an already-visited
url stores nothing and enqueues nothing. -/
theorem crawlVisitedUniqueness (fetch : List Char → Option (List Char))
    (links : List Char → List Char → List (List Char))
    (maxDepth : Nat) (isHtml : Bool) (fuel : Nat) (seeds : List (List Char)) :
    (processedUrls (crawlRun fetch links maxDepth isHtml fuel seeds).2).Nodup ∧
    (∀ it ∈ (crawlRun fetch links maxDepth isHtml fuel seeds).2,
      it.wasVisited = true → it.stored = none ∧ it.enqueued = []) :=
  ⟨(crawlLoop_processed fetch links maxDepth isHtml fuel (crawlInit seeds) []).1,
   fun it hit h =>
    (crawlLoop_shape fetch links maxDepth isHtml fuel (crawlInit seeds) [] it hit).2.1 h⟩

/-- Witness for C5 on a crawl with a duplicated seed: the second dequeue
of `a/` is discarded without work. -/
theorem crawlVisitedUniqueness_witness :
    ((Iter.mk (Entry.mk (str "a/") 0 (str "a/")) true false none [] 1 false)
        ∈ (crawlRun (fun _ => some []) (fun _ _ => []) 0 true 5
            [str "a/", str "a/"]).2 ∧
      (Iter.mk (Entry.mk (str "a/") 0 (str "a/")) true false none [] 1 false).wasVisited
        = true ∧
      (Iter.mk (Entry.mk (str "a/") 0 (str "a/")) true false none [] 1 false).stored = none ∧
      (Iter.mk (Entry.mk (str "a/") 0 (str "a/")) true false none [] 1 false).enqueued = []) ∧
    (processedUrls (crawlRun (fun _ => some []) (fun _ _ => []) 0 true 5
        [str "a/", str "a/"]).2).Nodup :=
  ⟨⟨by decide, rfl,
    (crawlVisitedUniqueness (fun _ => some []) (fun _ _ => []) 0 true 5
      [str "a/", str "a/"]).2 _ (by decide) rfl⟩,
   (crawlVisitedUniqueness (fun _ => some []) (fun _ _ => []) 0 true 5
      [str "a/", str "a/"]).1⟩

/-- C7, counterexample to the claim as stated.  In the crawl seeded at
`[a/, b/, a/]` with every fetch succeeding, the third dequeue iteration
happens when two urls have already been visited, yet no delay is applied:
the iteration is discarded by the visited-set guard and the `continue`
skips the sleep at the end of the loop body. -/
theorem crawlDelayEveryDequeue_counterexample :
    ¬ (∀ it ∈ (crawlRun (fun _ => some []) (fun _ _ => []) 0 true 5
        [str "a/", str "b/", str "a/"]).2,
        1 < it.visitedAfter → it.slept = true) := by
  decide

/-- C7, amended.  The politeness delay runs after exactly those dequeue
iterations that do work (the url was not already visited and its fetch
succeeded) once more than one url has been visited; it is skipped while at
most one url has been visited, and skipped on iterations discarded by the
visited-set guard or by a fetch failure. -/
theorem crawlDelayCondition (fetch : List Char → Option (List Char))
    (links : List Char → List Char → List (List Char))
    (maxDepth : Nat) (isHtml : Bool) (fuel : Nat) (seeds : List (List Char))
    (it : Iter) (hit : it ∈ (crawlRun fetch links maxDepth isHtml fuel seeds).2) :
    it.slept = true ↔
      it.wasVisited = false ∧ it.fetchOk = true ∧ 1 < it.visitedAfter :=
  (crawlLoop_shape fetch links maxDepth isHtml fuel (crawlInit seeds) [] it hit).2.2

/-- Witness for the amended C7 at the second iteration of the crawl of
`crawlDelayEveryDequeue_counterexample`, where the delay does run. -/
theorem crawlDelayCondition_witness :
    (Iter.mk (Entry.mk (str "b/") 0 (str "b/")) false true (some (str "b/")) [] 2 true)
      ∈ (crawlRun (fun _ => some []) (fun _ _ => []) 0 true 5
          [str "a/", str "b/", str "a/"]).2 ∧
    ((Iter.mk (Entry.mk (str "b/") 0 (str "b/")) false true (some (str "b/")) [] 2
        true).slept = true ↔
      (Iter.mk (Entry.mk (str "b/") 0 (str "b/")) false true (some (str "b/")) [] 2
        true).wasVisited = false ∧
      (Iter.mk (Entry.mk (str "b/") 0 (str "b/")) false true (some (str "b/")) [] 2
        true).fetchOk = true ∧
      1 < (Iter.mk (Entry.mk (str "b/") 0 (str "b/")) false true (some (str "b/")) [] 2
        true).visitedAfter) :=
  ⟨by decide,
   crawlDelayCondition (fun _ => some []) (fun _ _ => []) 0 true 5
     [str "a/", str "b/", str "a/"] _ (by decide)⟩

lemma lastIdxOf_eq_none_of_not_mem (ch : Char) (l : List Char) (h : ch ∉ l) :
    lastIdxOf ch l = none := by
  induction l with
  | nil => rfl
  | cons x xs ih =>
    have hx : ¬(x = ch) := fun hc => h (hc ▸ List.mem_cons_self _ _)
    have hxs : ch ∉ xs := fun hc => h (List.mem_cons_of_mem _ hc)
    simp [lastIdxOf, ih hxs, hx]

lemma lastIdxOf_append_slash (a b : List Char) (hb : '/' ∉ b) :
    lastIdxOf '/' (a ++ '/' :: b) = some a.length := by
  induction a with
  | nil => simp [lastIdxOf, lastIdxOf_eq_none_of_not_mem '/' b hb]
  | cons x xs ih => simp [lastIdxOf, ih]

lemma take_append_slash (a b : List Char) :
    (a ++ '/' :: b).take (a.length + 1) = a ++ ['/'] := by
  induction a with
  | nil => simp
  | cons x xs ih => simpa using ih

/-- C6.  Scope computation per seed: a seed ending in `/` is its own
scope; a seed with no `/` at all is its own scope; otherwise the scope is
the seed truncated to and including its last `/`. -/
theorem seedScopeComputation (seed : List Char) :
    (seed.getLast? = some '/' → seedScope seed = seed) ∧
    ('/' ∉ seed → seedScope seed = seed) ∧
    (∀ a b, seed = a ++ '/' :: b → '/' ∉ b → seedScope seed = a ++ ['/']) := by
  refine ⟨fun h => by simp [seedScope, h], fun h => ?_, fun a b hab hb => ?_⟩
  · have h1 : ¬(seed.getLast? = some '/') := fun hc =>
      h (List.mem_of_getLast?_eq_some hc)
    rw [seedScope, if_neg h1, lastIdxOf_eq_none_of_not_mem _ _ h]
  · subst hab
    by_cases hbe : b = []
    · subst hbe
      have hend : (a ++ ['/']).getLast? = some '/' := List.getLast?_concat a
      rw [seedScope, if_pos hend]
    · have hend : ¬((a ++ '/' :: b).getLast? = some '/') := by
        intro hc
        rw [List.getLast?_append] at hc
        have hb2 : ('/' :: b).getLast? = b.getLast? := by
          cases b with
          | nil => exact absurd rfl hbe
          | cons y ys => simp
        rw [hb2] at hc
        cases hg : b.getLast? with
        | none => rw [hg] at hc; simp at hc; exact hbe (List.getLast?_eq_none_iff.mp hg)
        | some y =>
          rw [hg] at hc
          simp at hc
          exact hb (hc ▸ List.mem_of_getLast?_eq_some hg)
      rw [seedScope, if_neg hend, lastIdxOf_append_slash a b hb]
      exact take_append_slash a b

/-- Witness for C6 at three concrete seeds: one ending in a slash, one
with no slash, and one with a trailing path segment. -/
theorem seedScopeComputation_witness :
    ((str "https://x.com/docs/").getLast? = some '/' ∧
      seedScope (str "https://x.com/docs/") = str "https://x.com/docs/") ∧
    ('/' ∉ str "intro" ∧ seedScope (str "intro") = str "intro") ∧
    (str "https://x.com/docs/intro" = str "https://x.com/docs" ++ '/' :: str "intro" ∧
      '/' ∉ str "intro" ∧
      seedScope (str "https://x.com/docs/intro") = str "https://x.com/docs" ++ ['/']) :=
  ⟨⟨by decide, (seedScopeComputation (str "https://x.com/docs/")).1 (by decide)⟩,
   ⟨by decide, (seedScopeComputation (str "intro")).2.1 (by decide)⟩,
   ⟨by decide, by decide,
    (seedScopeComputation (str "https://x.com/docs/intro")).2.2
      (str "https://x.com/docs") (str "intro") (by decide) (by decide)⟩⟩

lemma lookupKey_eq_none {β : Type} (t : List Char) (R : List (List Char × β))
    (h : t ∉ R.map Prod.fst) : lookupKey t R = none := by
  induction R with
  | nil => rfl
  | cons kv R ih =>
    simp only [List.map_cons, List.mem_cons, not_or] at h
    simp only [lookupKey, if_neg h.1]
    exact ih h.2

lemma lookupKey_isSome {β : Type} (t : List Char) (R : List (List Char × β))
    (h : t ∈ R.map Prod.fst) : ∃ v, lookupKey t R = some v := by
  induction R with
  | nil => simp at h
  | cons kv R ih =>
    simp only [List.map_cons, List.mem_cons] at h
    by_cases hk : t = kv.1
    · exact ⟨kv.2, by simp [lookupKey, hk]⟩
    · obtain ⟨v, hv⟩ := ih (h.resolve_left hk)
      exact ⟨v, by simp [lookupKey, hk, hv]⟩

lemma infix_extend_left {l m x : List Char} (h : l <:+: m) : l <:+: x ++ m := by
  obtain ⟨s, t, rfl⟩ := h
  exact ⟨x ++ s, t, by simp⟩

lemma infix_of_parts (pre suf l : List Char) : l <:+: pre ++ l ++ suf :=
  ⟨pre, suf, rfl⟩

lemma infix_pyReprItems (k : List Char) (keys : List (List Char)) (h : k ∈ keys) :
    k <:+: pyReprItems keys := by
  induction keys with
  | nil => cases h
  | cons y ys ih =>
    rcases List.mem_cons.mp h with rfl | hmem
    · cases ys with
      | nil => exact ⟨[quoteChar], [quoteChar], by simp [pyReprItems]⟩
      | cons z zs =>
        exact ⟨[quoteChar], [quoteChar] ++ str ", " ++ pyReprItems (z :: zs),
          by simp [pyReprItems]⟩
    · cases ys with
      | nil => cases hmem
      | cons z zs =>
        obtain ⟨s, t, hst⟩ := ih hmem
        refine ⟨quoteChar :: y ++ [quoteChar] ++ str ", " ++ s, t, ?_⟩
        simp only [pyReprItems, ← hst]
        simp

/-- C9.  Unknown-tag fault: for a type tag absent from the parser
(resp. embedder) registry the lookup raises an error whose message
contains the requested tag and every registered tag; for a registered tag
the lookup returns its class without raising. -/
theorem registryUnknownTagFault (t : List Char) :
    (t ∉ parserRegistry.map Prod.fst →
      ∃ msg, getParserKind t = Except.error msg ∧ t <:+: msg ∧
        ∀ k ∈ parserRegistry.map Prod.fst, k <:+: msg) ∧
    (t ∈ parserRegistry.map Prod.fst → ∃ cls, getParserKind t = Except.ok cls) ∧
    (t ∉ embedderRegistry.map Prod.fst →
      ∃ msg, getEmbedderKind t = Except.error msg ∧ t <:+: msg ∧
        ∀ k ∈ embedderRegistry.map Prod.fst, k <:+: msg) ∧
    (t ∈ embedderRegistry.map Prod.fst → ∃ cls, getEmbedderKind t = Except.ok cls) := by
  refine ⟨fun h => ?_, fun h => ?_, fun h => ?_, fun h => ?_⟩
  · refine ⟨str "Unsupported source type: " ++ t ++ str ". Available types: "
        ++ pyListRepr (parserRegistry.map Prod.fst), ?_, ?_, ?_⟩
    · simp [getParserKind, lookupKey_eq_none t parserRegistry h]
    · exact ⟨str "Unsupported source type: ",
        str ". Available types: " ++ pyListRepr (parserRegistry.map Prod.fst),
        by simp⟩
    · intro k hk
      have h1 : k <:+: pyListRepr (parserRegistry.map Prod.fst) :=
        infix_extend_left (x := ['['])
          ((infix_pyReprItems k _ hk).trans ⟨[], [']'], rfl⟩)
      exact infix_extend_left h1
  · obtain ⟨v, hv⟩ := lookupKey_isSome t parserRegistry h
    exact ⟨v, by simp [getParserKind, hv]⟩
  · refine ⟨str "Unknown store type: " ++ t ++ str ". Available: "
        ++ pyListRepr (embedderRegistry.map Prod.fst), ?_, ?_, ?_⟩
    · simp [getEmbedderKind, lookupKey_eq_none t embedderRegistry h]
    · exact ⟨str "Unknown store type: ",
        str ". Available: " ++ pyListRepr (embedderRegistry.map Prod.fst),
        by simp⟩
    · intro k hk
      have h1 : k <:+: pyListRepr (embedderRegistry.map Prod.fst) :=
        infix_extend_left (x := ['['])
          ((infix_pyReprItems k _ hk).trans ⟨[], [']'], rfl⟩)
      exact infix_extend_left h1
  · obtain ⟨v, hv⟩ := lookupKey_isSome t embedderRegistry h
    exact ⟨v, by simp [getEmbedderKind, hv]⟩

/-- Witness for C9 at the unregistered tag `pdf` and the registered tags
`html` and `qdrant`. -/
theorem registryUnknownTagFault_witness :
    (str "pdf" ∉ parserRegistry.map Prod.fst ∧
      ∃ msg, getParserKind (str "pdf") = Except.error msg ∧ str "pdf" <:+: msg ∧
        ∀ k ∈ parserRegistry.map Prod.fst, k <:+: msg) ∧
    (str "html" ∈ parserRegistry.map Prod.fst ∧
      ∃ cls, getParserKind (str "html") = Except.ok cls) ∧
    (str "pdf" ∉ embedderRegistry.map Prod.fst ∧
      ∃ msg, getEmbedderKind (str "pdf") = Except.error msg ∧ str "pdf" <:+: msg ∧
        ∀ k ∈ embedderRegistry.map Prod.fst, k <:+: msg) ∧
    (str "qdrant" ∈ embedderRegistry.map Prod.fst ∧
      ∃ cls, getEmbedderKind (str "qdrant") = Except.ok cls) :=
  ⟨⟨by decide, (registryUnknownTagFault (str "pdf")).1 (by decide)⟩,
   ⟨by decide, (registryUnknownTagFault (str "html")).2.1 (by decide)⟩,
   ⟨by decide, (registryUnknownTagFault (str "pdf")).2.2.1 (by decide)⟩,
   ⟨by decide, (registryUnknownTagFault (str "qdrant")).2.2.2 (by decide)⟩⟩

lemma filterMap_parserIngest_nil {α : Type} (fetch : List Char → Option α)
    (parse : α → List Char → ParsedDocument) (sources : List (List Char))
    (h : ∀ s ∈ sources, fetch s = none) :
    sources.filterMap (parserIngest fetch parse) = [] := by
  induction sources with
  | nil => rfl
  | cons s ss ih =>
    simp only [List.filterMap_cons, parserIngest, h s (List.mem_cons_self _ _)]
    exact ih (fun x hx => h x (List.mem_cons_of_mem _ hx))

lemma getParserKind_html : getParserKind (str "html") = Except.ok ParserKind.html := rfl

lemma getEmbedderKind_qdrant :
    getEmbedderKind (str "qdrant") = Except.ok EmbedderKind.qdrant := rfl

/-- C8.  Fetch-failure tolerance in flat ingest: a source whose fetch
returns absent yields no document (no fault), a source list on which
every fetch fails makes `ingest` return `0` with no embedder `store` call
(whatever the store type), and otherwise the embedder `store` is invoked
exactly once with the full batch of successfully parsed documents and its
result returned. -/
theorem ingestFetchFailureTolerance {α : Type} (fetch : List Char → Option α)
    (parse : α → List Char → ParsedDocument) (storeFn : List ParsedDocument → Nat)
    (store_type : List Char) (sources : List (List Char)) :
    (∀ s, fetch s = none → parserIngest fetch parse s = none) ∧
    ((∀ s ∈ sources, fetch s = none) →
      ingestOp fetch parse storeFn (str "html") store_type sources
        = Except.ok { returned := 0, storeCalls := [], embedderLookups := 0 }) ∧
    (sources.filterMap (parserIngest fetch parse) ≠ [] →
      ingestOp fetch parse storeFn (str "html") (str "qdrant") sources
        = Except.ok
            { returned := storeFn (sources.filterMap (parserIngest fetch parse)),
              storeCalls := [sources.filterMap (parserIngest fetch parse)],
              embedderLookups := 1 }) := by
  refine ⟨fun s h => by simp [parserIngest, h], fun h => ?_, fun h => ?_⟩
  · simp [ingestOp, getParserKind_html,
      filterMap_parserIngest_nil fetch parse sources h]
  · simp [ingestOp, getParserKind_html, getEmbedderKind_qdrant, h]

/-- Witness for C8: one always-failing source, an all-failing source list
under an arbitrary store type, and a mixed source list. -/
theorem ingestFetchFailureTolerance_witness :
    ((fun u => if u = str "bad" then none else some 0 : List Char → Option Nat)
        (str "bad") = none ∧
      parserIngest (fun u => if u = str "bad" then none else some 0)
        (fun _ s => ⟨s, [], [], [], [], str "html"⟩) (str "bad") = none) ∧
    ((∀ s ∈ [str "bad"],
        (fun u => if u = str "bad" then none else (some 0 : Option Nat)) s = none) ∧
      ingestOp (fun u => if u = str "bad" then none else some 0)
        (fun _ s => ⟨s, [], [], [], [], str "html"⟩) List.length
        (str "html") (str "chroma") [str "bad"]
        = Except.ok { returned := 0, storeCalls := [], embedderLookups := 0 }) ∧
    ([str "bad", str "good"].filterMap
        (parserIngest (fun u => if u = str "bad" then none else some 0)
          (fun _ s => ⟨s, [], [], [], [], str "html"⟩)) ≠ [] ∧
      ingestOp (fun u => if u = str "bad" then none else some 0)
        (fun _ s => ⟨s, [], [], [], [], str "html"⟩) List.length
        (str "html") (str "qdrant") [str "bad", str "good"]
        = Except.ok
            { returned := List.length ([str "bad", str "good"].filterMap
                (parserIngest (fun u => if u = str "bad" then none else some 0)
                  (fun _ s => ⟨s, [], [], [], [], str "html"⟩))),
              storeCalls := [[str "bad", str "good"].filterMap
                (parserIngest (fun u => if u = str "bad" then none else some 0)
                  (fun _ s => ⟨s, [], [], [], [], str "html"⟩))],
              embedderLookups := 1 }) :=
  ⟨⟨by decide,
    (ingestFetchFailureTolerance (fun u => if u = str "bad" then none else some 0)
      (fun _ s => ⟨s, [], [], [], [], str "html"⟩) List.length
      (str "chroma") [str "bad"]).1 _ (by decide)⟩,
   ⟨by decide,
    (ingestFetchFailureTolerance (fun u => if u = str "bad" then none else some 0)
      (fun _ s => ⟨s, [], [], [], [], str "html"⟩) List.length
      (str "chroma") [str "bad"]).2.1 (by decide)⟩,
   ⟨by decide,
    (ingestFetchFailureTolerance (fun u => if u = str "bad" then none else some 0)
      (fun _ s => ⟨s, [], [], [], [], str "html"⟩) List.length
      (str "qdrant") [str "bad", str "good"]).2.2 (by decide)⟩⟩

/-- C10.  In the flat ingest path the embedder is resolved only after at
least one document was parsed: when every fetch fails, `ingest` returns
`0` without consulting the embedder registry, so an unknown store type
does not fault on that path; `crawl` resolves the embedder before any
fetching, so the same unknown store type faults there for every seed list,
the empty one included. -/
theorem lazyEmbedderResolution {α : Type} (store_type : List Char)
    (h1 : store_type ∉ embedderRegistry.map Prod.fst)
    (fetch : List Char → Option α) (parse : α → List Char → ParsedDocument)
    (storeFn : List ParsedDocument → Nat) (sources : List (List Char))
    (h2 : ∀ s ∈ sources, fetch s = none)
    (fetchC : List Char → Option (List Char))
    (links : List Char → List Char → List (List Char))
    (maxDepth fuel : Nat) (seeds : List (List Char)) :
    ingestOp fetch parse storeFn (str "html") store_type sources
      = Except.ok { returned := 0, storeCalls := [], embedderLookups := 0 } ∧
    crawlOp fetchC links maxDepth (str "html") store_type fuel seeds
      = Except.error (str "Unknown store type: " ++ store_type
          ++ str ". Available: " ++ pyListRepr (embedderRegistry.map Prod.fst)) := by
  constructor
  · simp [ingestOp, getParserKind_html,
      filterMap_parserIngest_nil fetch parse sources h2]
  · simp [crawlOp, getParserKind_html, getEmbedderKind,
      lookupKey_eq_none store_type embedderRegistry h1]

/-- Witness for C10 at the unregistered store type `chroma`, an
all-failing single-source ingest, and an empty seed crawl. -/
theorem lazyEmbedderResolution_witness :
    (str "chroma" ∉ embedderRegistry.map Prod.fst ∧
      (∀ s ∈ [str "u"], (fun _ => (none : Option Nat)) s = none)) ∧
    (ingestOp (fun _ => (none : Option Nat))
        (fun _ s => ⟨s, [], [], [], [], str "html"⟩) List.length
        (str "html") (str "chroma") [str "u"]
        = Except.ok { returned := 0, storeCalls := [], embedderLookups := 0 } ∧
      crawlOp (fun _ => none) (fun _ _ => []) 3 (str "html") (str "chroma") 9 []
        = Except.error (str "Unknown store type: " ++ str "chroma"
            ++ str ". Available: " ++ pyListRepr (embedderRegistry.map Prod.fst))) :=
  ⟨⟨by decide, by decide⟩,
   lazyEmbedderResolution (str "chroma") (by decide) (fun _ => none)
     (fun _ s => ⟨s, [], [], [], [], str "html"⟩) List.length [str "u"]
     (by decide) (fun _ => none) (fun _ _ => []) 3 9 []⟩
